import Mathlib

/-!
Shallow embedding of the `get_tieba` crawler (fetch_data.py, database_sqlite.py)
and verification of its specification claims.

HTML documents are represented by the result of the external CSS-selector
queries the code performs: a detail page carries the presence of the
`div.core` container, the ordered list of `div.l_post` fragment nodes
(each with its optional decodable `data-field` payload and the list of
`cc div.d_post_content` text renderings), and the list of `.core_title_txt`
title nodes.  Exceptions of the Python code (KeyError, IndexError,
AttributeError) are modelled as explicit error results that propagate
exactly as far as the code lets them.
-/

set_option autoImplicit false

namespace GetTieba

/-- Python `str.lower()` on an ASCII charset name, as a character map. -/
def pyLower (s : String) : String := ⟨s.data.map Char.toLower⟩

/-- Python truthiness of an optional string: `None` and `""` are falsy. -/
def truthy : Option String → Bool
  | none => false
  | some s => !s.isEmpty

/-- Python `a or b` on optional strings: `b` whenever `a` is falsy. -/
def pyOr (a b : Option String) : Option String := if truthy a then a else b

/-- The `author` object inside a post fragment's `data-field` JSON payload;
`.get` lookups never raise, so both fields are optional. -/
structure PAuthor where
  id : Option String
  name : Option String
deriving Repr, DecidableEq

/-- The `content` object inside a `data-field` payload; `_content["date"]`
raises KeyError when `date` is absent, hence the optional field. -/
structure PContent where
  date : Option String
deriving Repr, DecidableEq

/-- A decoded `data-field` JSON payload; `data["content"]` / `data["author"]`
raise KeyError when the key is absent. -/
structure Payload where
  content : Option PContent
  author : Option PAuthor
deriving Repr, DecidableEq

/-- One `div.l_post` node of a detail page.  `dataField = none` means
`json.loads` fails on its `data-field` attribute; `ccTexts` is the list of
`tostring(..., method="text")` renderings of its `cc div.d_post_content`
matches (the code indexes `[0]`). -/
structure PostFragment where
  dataField : Option Payload
  ccTexts : List String
deriving Repr, DecidableEq

/-- A fragment with no payload and no content node, used as a list default. -/
def noFrag : PostFragment := ⟨none, []⟩

/-- A detail page as seen through the selectors of `parse_detail_page`. -/
structure DetailDoc where
  hasCore : Bool
  fragments : List PostFragment
  titles : List String
deriving Repr, DecidableEq

/-- The record persisted by `save_to_sqlite`. -/
structure ThreadRecord where
  page_num : Nat
  title : String
  content : String
  created_at : Option String
deriving Repr, DecidableEq

/-- `user_id = _author.get("id") or _author.get("name")` (fetch_data.py:76). -/
def userId (a : PAuthor) : Option String := pyOr a.id a.name

/-- Result of the fragment loop of `parse_detail_page`:
either an uncaught exception or the final `created_at` and `contents`. -/
inductive LoopOut where
  | err : LoopOut
  | done (created : Option String) (contents : List String) : LoopOut
deriving Repr, DecidableEq

/-- The `for div in post_contents` loop of `parse_detail_page`
(fetch_data.py:66-85), threading `main_author`, `created_at` and `contents`.
A fragment whose payload fails to decode is skipped (`continue`); a missing
`content`/`author` key or `date` key or an empty `cc div.d_post_content`
selection raises (`.err`); `created_at` is assigned before the author
mismatch check, and the mismatch breaks the loop. -/
def fuseLoop : List PostFragment → Option String → Option String → List String → LoopOut
  | [], _, created, acc => .done created acc
  | f :: rest, main, created, acc =>
    match f.dataField with
    | none => fuseLoop rest main created acc
    | some data =>
      match data.content, data.author with
      | some c, some a =>
        let uid := userId a
        let main2 := if main.isNone then uid else main
        match c.date with
        | none => .err
        | some d =>
          if main2 ≠ uid then .done (some d) acc
          else
            match f.ccTexts.head? with
            | none => .err
            | some t => fuseLoop rest main2 (some d) (acc ++ [t])
      | _, _ => .err

/-- Outcome of `PageItem.parse_detail_page`: the early `return` when
`div.core` is absent, an uncaught exception, or the record handed to
`save_to_sqlite`. -/
inductive ParseResult where
  | noCore : ParseResult
  | err : ParseResult
  | saved (r : ThreadRecord) : ParseResult
deriving Repr, DecidableEq

/-- `PageItem.parse_detail_page` (fetch_data.py:52-90): bail out when
`div.core` is absent, run the fusion loop, read the title (IndexError when
absent), join the fused texts with a blank line and build the saved record. -/
def parse_detail_page (page_num : Nat) (doc : DetailDoc) : ParseResult :=
  if doc.hasCore then
    match fuseLoop doc.fragments none none [] with
    | .err => .err
    | .done created contents =>
      match doc.titles.head? with
      | none => .err
      | some title =>
        .saved ⟨page_num, title, String.intercalate "\n\n" contents, created⟩
  else .noCore

/-- A fragment is processed (not `continue`d over) iff its payload decodes. -/
def decodable (f : PostFragment) : Bool := f.dataField.isSome

/-- The fusion identity of a fragment, when its payload decodes and has an
`author` key: `some (userId author)`. -/
def fragUid (f : PostFragment) : Option (Option String) :=
  (f.dataField.bind Payload.author).map userId

/-- The `content.date` of a fragment, when present. -/
def fragDate (f : PostFragment) : Option String :=
  (f.dataField.bind Payload.content).bind PContent.date

/-- The text rendering of a fragment's first `cc div.d_post_content` node. -/
def fragText (f : PostFragment) : String := f.ccTexts.headD ""

/-- A fragment is well formed when, if decodable, its payload has `content`
and `author` keys, a `date`, and at least one `cc div.d_post_content` node:
exactly the shape on which the loop raises no exception. -/
def wfFragment (f : PostFragment) : Bool :=
  match f.dataField with
  | none => true
  | some p =>
    match p.content, p.author with
    | some c, some _ => c.date.isSome && !f.ccTexts.isEmpty
    | _, _ => false

/-- Does a fragment fuse with canonical author `s`? -/
def matchesUid (s : String) (f : PostFragment) : Bool :=
  fragUid f == some (some s)

/-- The `created_at` value the loop ends with, given the fused prefix `pre`
and the remaining decodable fragments `rest`: the first mismatching
fragment's date when one exists, else the last fused fragment's date, else
the initial value. -/
def specCreated (c₀ : Option String) (pre rest : List PostFragment) : Option String :=
  match rest.head? with
  | some g => fragDate g
  | none =>
    match pre.getLast? with
    | some l => fragDate l
    | none => c₀

lemma specCreated_cons (c₀ c₁ : Option String) (f : PostFragment)
    (pre rest : List PostFragment) (hf : fragDate f = c₁) :
    specCreated c₀ (f :: pre) rest = specCreated c₁ pre rest := by
  cases rest with
  | cons g gs => simp [specCreated]
  | nil =>
    cases pre with
    | nil => simp [specCreated, hf]
    | cons p ps =>
      simp only [specCreated, List.getLast?_cons_cons]
      cases h : (p :: ps).getLast? with
      | none => simp [List.getLast?_eq_none_iff] at h
      | some l => rfl

/-- With the canonical author already established as `some s`, the loop
fuses exactly the maximal prefix of decodable fragments whose identity is
`some s`, and ends with the `specCreated` date. -/
lemma fuseLoop_established (s : String) :
    ∀ (fs : List PostFragment) (created : Option String) (acc : List String),
      (∀ f ∈ fs, wfFragment f = true) →
      fuseLoop fs (some s) created acc =
        .done
          (specCreated created ((fs.filter decodable).takeWhile (matchesUid s))
            ((fs.filter decodable).dropWhile (matchesUid s)))
          (acc ++ ((fs.filter decodable).takeWhile (matchesUid s)).map fragText) := by
  intro fs
  induction fs with
  | nil => intro created acc _; simp [fuseLoop, specCreated]
  | cons f fs ih =>
    intro created acc hwf
    have hwf_f : wfFragment f = true := hwf f (by simp)
    have hwf_fs : ∀ g ∈ fs, wfFragment g = true := fun g hg => hwf g (by simp [hg])
    obtain ⟨df, cc⟩ := f
    cases df with
    | none =>
      simp only [fuseLoop, List.filter]
      have : decodable ⟨none, cc⟩ = false := by simp [decodable]
      rw [ih created acc hwf_fs]
      simp [decodable]
    | some data =>
      obtain ⟨pc, pa⟩ := data
      cases pc with
      | none => simp [wfFragment] at hwf_f
      | some c =>
        cases pa with
        | none => simp [wfFragment] at hwf_f
        | some a =>
          simp only [wfFragment, Bool.and_eq_true] at hwf_f
          obtain ⟨hdate, hcc⟩ := hwf_f
          obtain ⟨d, hd⟩ := Option.isSome_iff_exists.mp hdate
          cases cc with
          | nil => simp at hcc
          | cons t ts =>
            have hdec : decodable ⟨some ⟨some c, some a⟩, t :: ts⟩ = true := by
              simp [decodable]
            have hmain :
                (if (some s : Option String).isNone = true then userId a else some s) =
                  some s := rfl
            by_cases hmatch : userId a = some s
            · have hm : matchesUid s ⟨some ⟨some c, some a⟩, t :: ts⟩ = true := by
                simp [matchesUid, fragUid, hmatch]
              simp only [fuseLoop, hd]
              rw [hmain]
              rw [if_neg (by simp [hmatch])]
              simp only [List.head?_cons]
              rw [ih (some d) (acc ++ [t]) hwf_fs]
              rw [List.filter_cons_of_pos hdec, List.takeWhile_cons_of_pos hm,
                List.dropWhile_cons_of_pos hm]
              have hfd : fragDate ⟨some ⟨some c, some a⟩, t :: ts⟩ = some d := by
                simp [fragDate, hd]
              rw [specCreated_cons created (some d) _ _ _ hfd]
              simp [fragText]
            · have hm : matchesUid s ⟨some ⟨some c, some a⟩, t :: ts⟩ = false := by
                simp [matchesUid, fragUid, hmatch]
              simp only [fuseLoop, hd]
              rw [hmain]
              rw [if_pos (show (some s : Option String) ≠ userId a from
                fun h => hmatch h.symm)]
              rw [List.filter_cons_of_pos hdec, List.takeWhile_cons_of_neg (by simp [hm]),
                List.dropWhile_cons_of_neg (by simp [hm])]
              simp [specCreated, fragDate, hd]

/-- From the initial state (`main_author = None`) the loop establishes the
first decodable fragment's identity as canonical author, fuses the maximal
matching prefix, and ends with the `specCreated` date.  The hypothesis
`fragUid ... = some (some s₀)` says the first decodable fragment's identity
is a non-`None` Python value, ruling out the re-establishment quirk of
`main_author = user_id if main_author is None else main_author`. -/
lemma fuseLoop_start :
    ∀ (fs : List PostFragment), (∀ f ∈ fs, wfFragment f = true) →
    ∀ (s₀ : String),
      fragUid ((fs.filter decodable).headD noFrag) = some (some s₀) →
      fs.filter decodable ≠ [] →
      fuseLoop fs none none [] =
        .done
          (specCreated none ((fs.filter decodable).takeWhile (matchesUid s₀))
            ((fs.filter decodable).dropWhile (matchesUid s₀)))
          (((fs.filter decodable).takeWhile (matchesUid s₀)).map fragText) := by
  intro fs
  induction fs with
  | nil => intro _ s₀ _ hne; simp at hne
  | cons f fs ih =>
    intro hwf s₀ hu hne
    have hwf_f : wfFragment f = true := hwf f (by simp)
    have hwf_fs : ∀ g ∈ fs, wfFragment g = true := fun g hg => hwf g (by simp [hg])
    obtain ⟨df, cc⟩ := f
    cases df with
    | none =>
      have hskip : decodable ⟨none, cc⟩ = false := by simp [decodable]
      rw [List.filter_cons_of_neg (by simp [hskip])] at hu hne ⊢
      simp only [fuseLoop]
      exact ih hwf_fs s₀ hu hne
    | some data =>
      obtain ⟨pc, pa⟩ := data
      cases pc with
      | none => simp [wfFragment] at hwf_f
      | some c =>
        cases pa with
        | none => simp [wfFragment] at hwf_f
        | some a =>
          simp only [wfFragment, Bool.and_eq_true] at hwf_f
          obtain ⟨hdate, hcc⟩ := hwf_f
          obtain ⟨d, hd⟩ := Option.isSome_iff_exists.mp hdate
          cases cc with
          | nil => simp at hcc
          | cons t ts =>
            have hdec : decodable ⟨some ⟨some c, some a⟩, t :: ts⟩ = true := by
              simp [decodable]
            rw [List.filter_cons_of_pos hdec] at hu
            have hu' : userId a = some s₀ := by
              simpa [fragUid] using hu
            have hm : matchesUid s₀ ⟨some ⟨some c, some a⟩, t :: ts⟩ = true := by
              simp [matchesUid, fragUid, hu']
            have hmain0 :
                (if (none : Option String).isNone = true then userId a else none) =
                  userId a := rfl
            simp only [fuseLoop, hd]
            rw [hmain0]
            rw [if_neg (show ¬(userId a ≠ userId a) from by simp)]
            simp only [List.head?_cons]
            rw [hu']
            simp only [List.nil_append]
            rw [fuseLoop_established s₀ fs (some d) [t] hwf_fs]
            rw [List.filter_cons_of_pos hdec, List.takeWhile_cons_of_pos hm,
              List.dropWhile_cons_of_pos hm]
            have hfd : fragDate ⟨some ⟨some c, some a⟩, t :: ts⟩ = some d := by
              simp [fragDate, hd]
            rw [specCreated_cons none (some d) _ _ _ hfd]
            simp [fragText]

/-- Full characterization of `parse_detail_page` on a well-formed detail
page whose first decodable fragment has a non-`None` identity `s₀`: the
saved record's title is the first title node, its content is the fused
maximal matching prefix joined by blank lines, and its `created_at` is the
`specCreated` date. -/
lemma parse_detail_char (n : Nat) (doc : DetailDoc) (s₀ : String)
    (hcore : doc.hasCore = true)
    (ht : doc.titles ≠ [])
    (hwf : ∀ f ∈ doc.fragments, wfFragment f = true)
    (hne : doc.fragments.filter decodable ≠ [])
    (hu : fragUid ((doc.fragments.filter decodable).headD noFrag) = some (some s₀)) :
    parse_detail_page n doc =
      .saved ⟨n, doc.titles.headD "",
        String.intercalate "\n\n"
          (((doc.fragments.filter decodable).takeWhile (matchesUid s₀)).map fragText),
        specCreated none ((doc.fragments.filter decodable).takeWhile (matchesUid s₀))
          ((doc.fragments.filter decodable).dropWhile (matchesUid s₀))⟩ := by
  unfold parse_detail_page
  rw [if_pos hcore]
  rw [fuseLoop_start doc.fragments hwf s₀ hu hne]
  cases htl : doc.titles with
  | nil => exact absurd htl ht
  | cons t ts => simp [htl]

/-- The maximal leading run of decimal digits of a character list. -/
def takeDigits : List Char → List Char
  | [] => []
  | c :: cs => if c.isDigit then c :: takeDigits cs else []

/-- Scanner behind `re.match(".+/p/(\\d+)", url)` (fetch_data.py:45,98):
walking the characters left to right with their index, it records the digit
run after each occurrence of `/p/` that is preceded by at least one
character (the greedy `.+`) and followed by at least one digit, keeping the
last such occurrence — which is the one the greedy backtracking match
captures as group 1.  (`.` is modelled as matching any character; URLs
contain no newline.) -/
def scanP : Nat → List Char → Option (List Char) → Option (List Char)
  | _, [], best => best
  | i, c :: cs, best =>
    let best' :=
      if c == '/' && 1 ≤ i then
        match cs with
        | 'p' :: '/' :: rest =>
          let ds := takeDigits rest
          if ds.isEmpty then best else some ds
        | _ => best
      else best
    scanP (i + 1) cs best'

/-- Numeric value of a digit run, as Python `int` reads it. -/
def digitsVal (ds : List Char) : Nat :=
  ds.foldl (fun acc c => 10 * acc + (c.toNat - '0'.toNat)) 0

/-- `PageItem._page_num` (fetch_data.py:97-98): `none` models the
AttributeError raised by `.group(1)` when the regex does not match. -/
def page_num_of_url (url : String) : Option Nat :=
  (scanP 0 url.data none).map digitsVal

/-- A listing entry together with its listing reply date. -/
structure PageItem where
  url : String
  reply_date : String
  page_num : Nat
deriving Repr, DecidableEq

/-- `PageItem.__init__` (fetch_data.py:47-50): `none` models the exception
propagating out of `_page_num` when the URL has no `/p/<digits>` segment. -/
def mkPageItem (url reply_date : String) : Option PageItem :=
  (page_num_of_url url).map (fun k => ⟨url, reply_date, k⟩)

/-- One `li.j_thread_list` node of a listing page, as seen through the
selectors of `parse_summary_page`: its `a.j_th_tit` hrefs and its
`span.j_reply_data` nodes (the code indexes `[0]` into both). -/
structure ListingEntry where
  titleHrefs : List String
  replyDates : List String
deriving Repr, DecidableEq

/-- A listing page: its entry nodes and its `a.next` hrefs. -/
structure SummaryDoc where
  entries : List ListingEntry
  nextHrefs : List String
deriving Repr, DecidableEq

/-- `base_url % href` with `base_url = "http://tieba.baidu.com%s"`
(fetch_data.py:129,133,139). -/
def base_url_tpl (rel : String) : String := "http://tieba.baidu.com" ++ rel

/-- The body of the `for li in li_elms` loop (fetch_data.py:131-135):
`none` models the IndexError on a missing title link or reply-date node, or
the exception out of `PageItem.__init__`. -/
def parseEntry (li : ListingEntry) : Option PageItem :=
  match li.titleHrefs.head?, li.replyDates.head? with
  | some href, some rd => mkPageItem (base_url_tpl href) rd
  | _, _ => none

/-- The `for li in li_elms` loop building `link_items`
(fetch_data.py:130-135): an exception on any entry propagates out of the
loop, losing all items. -/
def parseEntries : List ListingEntry → Option (List PageItem)
  | [] => some []
  | e :: es =>
    match parseEntry e, parseEntries es with
    | some it, some its => some (it :: its)
    | _, _ => none

/-- `parse_summary_page` (fetch_data.py:124-143): build the item list (an
exception anywhere yields `none` with no partial list), then the next link
when an `a.next` node exists. -/
def parse_summary_page (doc : SummaryDoc) : Option (Option String × List PageItem) :=
  match parseEntries doc.entries with
  | none => none
  | some items => some ((doc.nextHrefs.head?).map base_url_tpl, items)

/-- Result of `response.body.decode(charset)`: success, a
`UnicodeDecodeError` (the only exception the code catches), or any other
exception (e.g. `LookupError` on an unknown encoding). -/
inductive DecodeOutcome where
  | ok (s : String) : DecodeOutcome
  | unicodeError : DecodeOutcome
  | otherError : DecodeOutcome
deriving Repr, DecidableEq

/-- A response body, represented by the behavior of the external decoder
on it: `strictDecode cs` is `body.decode(cs)` and `gb18030Ignore` is
`body.decode("gb18030", "ignore")` (`none` models that call raising). -/
structure RawBody where
  strictDecode : String → DecodeOutcome
  gb18030Ignore : Option String

/-- A fetched HTTP response as `handle_request.__call__` inspects it:
the error flag, the charset captured from the `Content-Type` header
(`none` models `re.match(...).group(1)` raising AttributeError when the
header has no charset), and the body. -/
structure Response where
  error : Bool
  charset : Option String
  body : RawBody

/-- What a single callback invocation did to the parser: nothing but an
error log, an uncaught exception, no parse because `html` was falsy, or a
parse of the decoded html. -/
inductive CallOutcome where
  | errorLogged : CallOutcome
  | exn : CallOutcome
  | noHtml : CallOutcome
  | parsed (html : String) : CallOutcome
deriving Repr, DecidableEq

/-- A callback invocation: whether it stopped the IOLoop, and its outcome. -/
structure CallResult where
  stopped : Bool
  outcome : CallOutcome
deriving Repr, DecidableEq

/-- `handle_request.__call__` (fetch_data.py:20-41).  On an error response
only a log happens (note: the loop is NOT stopped on this path, the
`exit_flag` check sits in the `else` branch).  Otherwise the charset is
extracted, the body decoded with it; on `UnicodeDecodeError` with a gbk
charset the body is re-decoded as gb18030 in ignore mode (any failure there
leaves `html = None`); on `UnicodeDecodeError` with another charset `html`
stays unbound and the later `if html:` raises NameError — after the stop;
a non-Unicode decode exception propagates before the stop.  The parser is
invoked only when `html` is truthy. -/
def handle_request_call (exit_flag : Bool) (resp : Response) : CallResult :=
  if resp.error then ⟨false, .errorLogged⟩
  else
    match resp.charset with
    | none => ⟨false, .exn⟩
    | some cs =>
      match resp.body.strictDecode cs with
      | .ok h => ⟨exit_flag, if h.isEmpty then .noHtml else .parsed h⟩
      | .otherError => ⟨false, .exn⟩
      | .unicodeError =>
        if pyLower cs == "gbk" then
          match resp.body.gb18030Ignore with
          | none => ⟨exit_flag, .noHtml⟩
          | some h => ⟨exit_flag, if h.isEmpty then .noHtml else .parsed h⟩
        else ⟨exit_flag, .exn⟩

/-- One completed fetch arriving at the IOLoop: the submission index of its
URL within the dispatched batch, and its response. -/
structure Arrival where
  idx : Nat
  resp : Response

/-- Does processing this arrival stop the IOLoop?  `async_fetch`
(fetch_data.py:154-157) registers `exit_flag = (len(page_items) == idx+1)`,
so only the last-submitted URL's callback can stop the loop, and only when
its response reaches the stop line. -/
def stopTrig (n : Nat) (a : Arrival) : Bool :=
  (handle_request_call (a.idx + 1 == n) a.resp).stopped

/-- The IOLoop started by `async_fetch` (fetch_data.py:150-161) for a batch
of `n` dispatched URLs, processing completions in arrival order: each
arrival's callback runs, and the loop halts right after the first callback
that calls `ioloop.IOLoop.instance().stop()`.  Returns the submission
indices that produced a terminal outcome and whether the loop was stopped
(`false` means `start()` never returns: the run hangs). -/
def async_fetch_loop (n : Nat) : List Arrival → List Nat × Bool
  | [] => ([], false)
  | a :: rest =>
    let r := handle_request_call (a.idx + 1 == n) a.resp
    if r.stopped then ([a.idx], true)
    else
      let p := async_fetch_loop n rest
      (a.idx :: p.1, p.2)

/-- Result of one listing iteration of `main` (fetch_data.py:185-193):
either the run aborts (an exception, or unpacking the `None` that
`fetch_summary_page` returns when the parser never ran), or the next link
and detail items are obtained. -/
inductive RunStep where
  | abort : RunStep
  | next (nextLink : Option String) (items : List PageItem) : RunStep

/-- `fetch_summary_page` (fetch_data.py:165-170) composed with the unpack
in `main`: the synchronous handler runs with `exit_flag = False`; only a
truthy decoded html reaches `parse_summary_page` (via the external HTML
parser `parseHtml`); every other outcome leaves the run with `None` or an
exception, aborting it. -/
def fetch_summary_step (parseHtml : String → SummaryDoc) (resp : Response) : RunStep :=
  match (handle_request_call false resp).outcome with
  | .parsed h =>
    match parse_summary_page (parseHtml h) with
    | some (nl, items) => .next nl items
    | none => .abort
  | _ => .abort

/-- State of the relational backend: the tables that exist. -/
structure DbState where
  tables : List String
deriving Repr, DecidableEq

/-- Modelled external behavior of `CREATE TABLE` without `IF NOT EXISTS`:
it fails (`none`) exactly when the table already exists, else adds it. -/
def execCreateTable (t : String) (s : DbState) : Option DbState :=
  if t ∈ s.tables then none else some ⟨s.tables ++ [t]⟩

/-- The table created by `PageItem.init_sqlite` (fetch_data.py:105-116). -/
def page_items_table : String := "page_items"

/-- `PageItem.init_sqlite` (fetch_data.py:101-120) with an arbitrary
schema-creation executor: the bare `except: pass` suppresses every failure,
so the state is returned unchanged on failure and the call never aborts. -/
def init_sqlite_with (exec : DbState → Option DbState) (s : DbState) : DbState :=
  match exec s with
  | some s2 => s2
  | none => s

/-- `PageItem.init_sqlite`: attempt to create `page_items`, suppressing
any failure. -/
def init_sqlite (s : DbState) : DbState :=
  init_sqlite_with (execCreateTable page_items_table) s

/-- State of a `database_sqlite.Connection`: the open handle (`none` after
`close`), identified by a generation number so that a reconnect is
observable, the last-use timestamp and the idle threshold. -/
structure SqlConnection where
  db : Option Nat
  lastUse : Int
  maxIdle : Int
  nextGen : Nat
deriving Repr, DecidableEq

/-- `Connection.reconnect` (database_sqlite.py:68-72): closes any existing
handle and opens a fresh one. -/
def sqlReconnect (c : SqlConnection) : SqlConnection :=
  { c with db := some c.nextGen, nextGen := c.nextGen + 1 }

/-- `Connection._ensure_connected` (database_sqlite.py:126-132): reconnect
when there is no handle or the connection has been idle longer than
`max_idle_time`, then stamp the last-use time. -/
def ensure_connected (now : Int) (c : SqlConnection) : SqlConnection :=
  let c2 := if c.db.isNone || decide (now - c.lastUse > c.maxIdle)
    then sqlReconnect c else c
  { c2 with lastUse := now }

/-- `Connection.__init__` (database_sqlite.py:42-54) with the default
`max_idle_time = 7*3600`: record the construction time as last use and
connect. -/
def connection_init (now : Int) : SqlConnection :=
  sqlReconnect { db := none, lastUse := now, maxIdle := 7 * 3600, nextGen := 0 }

/-- `Connection.execute` begins with `self._cursor()`
(database_sqlite.py:106-113,134-136), which runs `_ensure_connected`; this
is the connection state every store operation then works on. -/
def conn_execute (now : Int) (c : SqlConnection) : SqlConnection :=
  ensure_connected now c

lemma parseEntries_eq_none :
    ∀ (l : List ListingEntry) (x : ListingEntry), x ∈ l → parseEntry x = none →
      parseEntries l = none := by
  intro l
  induction l with
  | nil => intro x hx _; simp at hx
  | cons a as ih =>
    intro x hx hfx
    rcases List.mem_cons.mp hx with h | h
    · subst h; simp [parseEntries, hfx]
    · cases hfa : parseEntry a with
      | none => simp [parseEntries, hfa]
      | some b => simp [parseEntries, hfa, ih x h hfx]

lemma parseEntries_some :
    ∀ (es : List ListingEntry),
      (∀ e ∈ es, e.titleHrefs ≠ [] ∧ e.replyDates ≠ [] ∧
        (page_num_of_url (base_url_tpl (e.titleHrefs.headD ""))).isSome = true) →
      ∃ items : List PageItem, parseEntries es = some items ∧
        items.length = es.length ∧
        ∀ p ∈ items.zip es,
          p.1.url = base_url_tpl (p.2.titleHrefs.headD "") ∧
          p.1.reply_date = p.2.replyDates.headD "" := by
  intro es
  induction es with
  | nil => intro _; exact ⟨[], by simp [parseEntries], by simp, by simp⟩
  | cons e es ih =>
    intro h
    obtain ⟨hth, hrd, hpn⟩ := h e (by simp)
    obtain ⟨items, hmap, hlen, hzip⟩ := ih (fun x hx => h x (by simp [hx]))
    cases hh : e.titleHrefs with
    | nil => exact absurd hh hth
    | cons href hs =>
      cases hr : e.replyDates with
      | nil => exact absurd hr hrd
      | cons rd rs =>
        rw [hh] at hpn
        obtain ⟨k, hk⟩ := Option.isSome_iff_exists.mp hpn
        have hpe : parseEntry e = some ⟨base_url_tpl href, rd, k⟩ := by
          simp only [List.headD_cons] at hk
          simp [parseEntry, hh, hr, mkPageItem, hk]
        refine ⟨⟨base_url_tpl href, rd, k⟩ :: items, ?_, by simp [hlen], ?_⟩
        · simp [parseEntries, hpe, hmap]
        · intro p hp
          rcases List.mem_cons.mp hp with h | h
          · subst h; simp [hh, hr]
          · exact hzip p h

lemma fuseLoop_skip (f : PostFragment) (hf : f.dataField = none)
    (ys : List PostFragment) :
    ∀ (xs : List PostFragment) (m c : Option String) (acc : List String),
      fuseLoop (xs ++ f :: ys) m c acc = fuseLoop (xs ++ ys) m c acc := by
  intro xs
  induction xs with
  | nil =>
    intro m c acc
    obtain ⟨df, cc⟩ := f
    cases df with
    | none => simp [fuseLoop]
    | some p => simp at hf
  | cons x xs ih =>
    intro m c acc
    simp only [List.cons_append]
    obtain ⟨dx, cx⟩ := x
    cases dx with
    | none => simp only [fuseLoop]; exact ih m c acc
    | some data =>
      obtain ⟨pc, pa⟩ := data
      cases pc with
      | none => simp [fuseLoop]
      | some cnt =>
        cases pa with
        | none => simp [fuseLoop]
        | some a =>
          simp only [fuseLoop]
          cases hdt : cnt.date with
          | none => rfl
          | some d =>
            dsimp only
            by_cases hb : (if m.isNone then userId a else m) ≠ userId a
            · rw [if_pos hb, if_pos hb]
            · rw [if_neg hb, if_neg hb]
              cases cx.head? with
              | none => rfl
              | some t => exact ih _ _ _

lemma async_fetch_loop_char (n : Nat) :
    ∀ as : List Arrival,
      async_fetch_loop n as =
        ((as.takeWhile (fun a => !stopTrig n a)).map Arrival.idx ++
          (((as.dropWhile (fun a => !stopTrig n a)).head?).map Arrival.idx).toList,
         !((as.dropWhile (fun a => !stopTrig n a)).isEmpty)) := by
  intro as
  induction as with
  | nil => simp [async_fetch_loop]
  | cons a rest ih =>
    cases hst : stopTrig n a with
    | true =>
      have hr : (handle_request_call (a.idx + 1 == n) a.resp).stopped = true := hst
      simp only [async_fetch_loop, hr, if_pos]
      rw [List.takeWhile_cons_of_neg (by simp [hst]),
        List.dropWhile_cons_of_neg (by simp [hst])]
      simp
    | false =>
      have hr : (handle_request_call (a.idx + 1 == n) a.resp).stopped = false := hst
      simp only [async_fetch_loop, hr]
      rw [List.takeWhile_cons_of_pos (by simp [hst]),
        List.dropWhile_cons_of_pos (by simp [hst])]
      simp [ih]

/-- A fragment with a decodable payload carrying an author id, a date and
one content node, used as concrete test input. -/
def mkFrag (uid date text : String) : PostFragment :=
  ⟨some ⟨some ⟨some date⟩, some ⟨some uid, none⟩⟩, [text]⟩

/-- A detail page with two authors: alice's opening post, then bob's reply. -/
def docC1 : DetailDoc :=
  ⟨true, [mkFrag "alice" "2014-01-01 10:00" "first text",
          mkFrag "bob" "2014-01-02 11:00" "reply text"], ["a thread"]⟩

/-- Claim C1 is false on the code: on a page whose core container is
present and whose fused prefix is non-empty (alice's single opening post,
content "first text"), the saved record's `created_at` is
"2014-01-02 11:00" — the posted-timestamp of bob's mismatching fragment,
because `created_at = _content["date"]` runs before the
`if main_author != user_id: break` check — and not "2014-01-01 10:00",
the last fused fragment's timestamp. -/
theorem claim_C1_counterexample :
    parse_detail_page 1 docC1 =
      .saved ⟨1, "a thread", "first text", some "2014-01-02 11:00"⟩ ∧
    fragDate (mkFrag "alice" "2014-01-01 10:00" "first text") =
      some "2014-01-01 10:00" := by
  decide

/-- Claim C1 (amended): on a detail page whose core container is present,
whose fragments are well formed, with at least one decodable fragment and
a non-`None` identity on the first one, the saved record's `created_at`
equals the last fused fragment's posted-timestamp only when every
decodable fragment matches the first one's author; when fusion stops at a
mismatching fragment, `created_at` is that first mismatching fragment's
posted-timestamp. -/
theorem claim_C1_amended (n : Nat) (doc : DetailDoc) (s₀ : String)
    (hcore : doc.hasCore = true) (ht : doc.titles ≠ [])
    (hwf : ∀ f ∈ doc.fragments, wfFragment f = true)
    (hne : doc.fragments.filter decodable ≠ [])
    (hu : fragUid ((doc.fragments.filter decodable).headD noFrag) = some (some s₀)) :
    ∃ r, parse_detail_page n doc = .saved r ∧
      ((doc.fragments.filter decodable).dropWhile (matchesUid s₀) = [] →
        r.created_at = fragDate ((doc.fragments.filter decodable).getLastD noFrag)) ∧
      (∀ g gs, (doc.fragments.filter decodable).dropWhile (matchesUid s₀) = g :: gs →
        r.created_at = fragDate g) := by
  refine ⟨_, parse_detail_char n doc s₀ hcore ht hwf hne hu, ?_, ?_⟩
  · intro hrest
    have hpre : (doc.fragments.filter decodable).takeWhile (matchesUid s₀) =
        doc.fragments.filter decodable := by
      have h := List.takeWhile_append_dropWhile (p := matchesUid s₀)
        (l := doc.fragments.filter decodable)
      rw [hrest, List.append_nil] at h
      exact h
    show specCreated none _ _ = _
    rw [hrest, hpre]
    cases hl : (doc.fragments.filter decodable).getLast? with
    | none => exact absurd (List.getLast?_eq_none_iff.mp hl) hne
    | some l =>
      simp [specCreated, hl, List.getLastD_eq_getLast?]
  · intro g gs hrest
    show specCreated none _ _ = _
    rw [hrest]
    simp [specCreated]

/-- Witness for the amended C1 on the concrete two-author page: fusion
stops at bob's fragment and `created_at` is bob's date. -/
theorem claim_C1_amended_witness :
    ∃ r, parse_detail_page 1 docC1 = .saved r ∧
      ((docC1.fragments.filter decodable).dropWhile (matchesUid "alice") = [] →
        r.created_at = fragDate ((docC1.fragments.filter decodable).getLastD noFrag)) ∧
      (∀ g gs,
        (docC1.fragments.filter decodable).dropWhile (matchesUid "alice") = g :: gs →
        r.created_at = fragDate g) :=
  claim_C1_amended 1 docC1 "alice" (by decide) (by decide) (by decide)
    (by decide) (by decide)

/-- Claim C2: on a detail page whose core container is present (same
well-formedness hypotheses), the saved record's content is the plain texts
of exactly the maximal contiguous prefix of decodable fragments matching
the first decodable fragment's identity, joined by a blank line; every
fragment at or past the first mismatch is excluded, even one whose author
matches again later. -/
theorem claim_C2 (n : Nat) (doc : DetailDoc) (s₀ : String)
    (hcore : doc.hasCore = true) (ht : doc.titles ≠ [])
    (hwf : ∀ f ∈ doc.fragments, wfFragment f = true)
    (hne : doc.fragments.filter decodable ≠ [])
    (hu : fragUid ((doc.fragments.filter decodable).headD noFrag) = some (some s₀)) :
    ∃ r, parse_detail_page n doc = .saved r ∧
      r.content = String.intercalate "\n\n"
        (((doc.fragments.filter decodable).takeWhile (matchesUid s₀)).map fragText) :=
  ⟨_, parse_detail_char n doc s₀ hcore ht hwf hne hu, rfl⟩

/-- The spec's fusion scenario: fragments by alice, alice, bruce, alice. -/
def docC2 : DetailDoc :=
  ⟨true, [mkFrag "alice" "d1" "t1", mkFrag "alice" "d2" "t2",
          mkFrag "bruce" "d3" "t3", mkFrag "alice" "d4" "t4"], ["title2"]⟩

/-- Witness for C2 on the `[alice, alice, bruce, alice]` page: only the
first two fragments are fused. -/
theorem claim_C2_witness :
    ∃ r, parse_detail_page 2 docC2 = .saved r ∧
      r.content = String.intercalate "\n\n"
        (((docC2.fragments.filter decodable).takeWhile (matchesUid "alice")).map
          fragText) :=
  claim_C2 2 docC2 "alice" (by decide) (by decide) (by decide) (by decide)
    (by decide)

/-- A listing page whose first entry is fine and whose second entry's URL
has no `/p/<digits>` segment. -/
def docC3 : SummaryDoc :=
  ⟨[⟨["/p/31"], ["2014-01-03"]⟩, ⟨["/f/bad"], ["2014-01-04"]⟩], []⟩

/-- Claim C3 is false on the code: the first entry of `docC3` is perfectly
parseable, yet `parse_summary_page` raises (returns `none`) because the
second entry's URL lacks the numeric segment — `PageItem.__init__` raises
from `_page_num` inside the loop and no entry of the listing survives, so
the remaining pages of the batch are NOT processed. -/
theorem claim_C3_counterexample :
    parse_summary_page docC3 = none ∧
    parseEntry ⟨["/p/31"], ["2014-01-03"]⟩ =
      some ⟨"http://tieba.baidu.com/p/31", "2014-01-03", 31⟩ ∧
    page_num_of_url (base_url_tpl "/f/bad") = none := by
  decide

/-- Claim C3 (amended): a listing entry whose URL has no trailing numeric
path segment makes the entire listing parse raise: `parse_summary_page`
produces nothing (no item list at all), so no page of that listing batch
is dispatched — the failure is not contained to the one page. -/
theorem claim_C3_amended (doc : SummaryDoc) (e : ListingEntry) (h : String)
    (he : e ∈ doc.entries) (hh : e.titleHrefs.head? = some h)
    (hp : page_num_of_url (base_url_tpl h) = none) :
    parse_summary_page doc = none := by
  have hpe : parseEntry e = none := by
    unfold parseEntry
    rw [hh]
    cases e.replyDates.head? with
    | none => rfl
    | some rd => simp [mkPageItem, hp]
  unfold parse_summary_page
  rw [parseEntries_eq_none doc.entries e he hpe]

/-- Witness for the amended C3: a one-entry listing with a patternless URL
parses to nothing. -/
theorem claim_C3_amended_witness :
    parse_summary_page ⟨[⟨["/nope"], ["rd"]⟩], ["/n"]⟩ = none :=
  claim_C3_amended ⟨[⟨["/nope"], ["rd"]⟩], ["/n"]⟩ ⟨["/nope"], ["rd"]⟩ "/nope"
    (by decide) (by decide) (by decide)

/-- A response that decodes cleanly with its declared charset. -/
def okResp : Response := ⟨false, some "utf-8", ⟨fun _ => .ok "page", some "page"⟩⟩

/-- Claim C4 is false on the code: in a batch of two dispatched URLs whose
responses arrive out of submission order, the IOLoop is stopped by the
callback of the last-SUBMITTED URL (index 1, the only one registered with
`exit_flag = True`) as soon as its response is processed; the batch
completion signal fires with URL 0 still outstanding — it never produces a
terminal outcome. -/
theorem claim_C4_counterexample :
    (async_fetch_loop 2 [⟨1, okResp⟩, ⟨0, okResp⟩]).2 = true ∧
    (async_fetch_loop 2 [⟨1, okResp⟩, ⟨0, okResp⟩]).1 = [1] ∧
    0 ∉ (async_fetch_loop 2 [⟨1, okResp⟩, ⟨0, okResp⟩]).1 := by
  decide

/-- Claim C4 (amended): the batch completion signal fires exactly when the
first arrival that triggers the stop — a completion for the last-submitted
URL (the only callback registered with `exit_flag = True`) whose response
reaches the `ioloop.IOLoop.instance().stop()` line — is processed, and
terminal outcomes are produced exactly for the arrivals up to and
including that one; completions arriving after it are never processed,
and if no arrival triggers the stop the loop never returns. -/
theorem claim_C4_amended (n : Nat) (as : List Arrival) :
    async_fetch_loop n as =
      ((as.takeWhile (fun a => !stopTrig n a)).map Arrival.idx ++
        (((as.dropWhile (fun a => !stopTrig n a)).head?).map Arrival.idx).toList,
       !((as.dropWhile (fun a => !stopTrig n a)).isEmpty)) :=
  async_fetch_loop_char n as

/-- Claim C5: a listing whose entries each have a title link, a reply-date
node and a URL with the numeric segment parses to exactly one `PageItem`
per entry, each with the absolute URL `base_url % href`, and the next link
is non-null exactly when an `a.next` node is present. -/
theorem claim_C5 (doc : SummaryDoc)
    (h : ∀ e ∈ doc.entries, e.titleHrefs ≠ [] ∧ e.replyDates ≠ [] ∧
      (page_num_of_url (base_url_tpl (e.titleHrefs.headD ""))).isSome = true) :
    ∃ items, parse_summary_page doc =
        some ((doc.nextHrefs.head?).map base_url_tpl, items) ∧
      items.length = doc.entries.length ∧
      (∀ p ∈ items.zip doc.entries,
        p.1.url = base_url_tpl (p.2.titleHrefs.headD "")) ∧
      (((doc.nextHrefs.head?).map base_url_tpl).isSome = true ↔
        doc.nextHrefs ≠ []) := by
  obtain ⟨items, hmap, hlen, hzip⟩ := parseEntries_some doc.entries h
  refine ⟨items, ?_, hlen, fun p hp => (hzip p hp).1, ?_⟩
  · unfold parse_summary_page
    rw [hmap]
  · cases hn : doc.nextHrefs with
    | nil => simp
    | cons a as => simp

/-- Witness for C5 on a one-entry listing with a next link. -/
theorem claim_C5_witness :
    ∃ items,
      parse_summary_page ⟨[⟨["/p/5"], ["rd"]⟩], ["/next"]⟩ =
        some ((((⟨[⟨["/p/5"], ["rd"]⟩], ["/next"]⟩ : SummaryDoc).nextHrefs.head?).map
          base_url_tpl), items) ∧
      items.length = (⟨[⟨["/p/5"], ["rd"]⟩], ["/next"]⟩ : SummaryDoc).entries.length ∧
      (∀ p ∈ items.zip (⟨[⟨["/p/5"], ["rd"]⟩], ["/next"]⟩ : SummaryDoc).entries,
        p.1.url = base_url_tpl (p.2.titleHrefs.headD "")) ∧
      ((((⟨[⟨["/p/5"], ["rd"]⟩], ["/next"]⟩ : SummaryDoc).nextHrefs.head?).map
          base_url_tpl).isSome = true ↔
        (⟨[⟨["/p/5"], ["rd"]⟩], ["/next"]⟩ : SummaryDoc).nextHrefs ≠ []) :=
  claim_C5 ⟨[⟨["/p/5"], ["rd"]⟩], ["/next"]⟩ (by decide)

/-- Claim C6: a post fragment whose `data-field` payload fails to decode
as JSON is skipped and extraction is unchanged: parsing a detail page with
the undecodable fragment anywhere among the others gives exactly the same
result as parsing the page without it, whatever the rest of the page is. -/
theorem claim_C6 (n : Nat) (hasCore : Bool) (titles : List String)
    (xs ys : List PostFragment) (f : PostFragment) (hf : f.dataField = none) :
    parse_detail_page n ⟨hasCore, xs ++ f :: ys, titles⟩ =
      parse_detail_page n ⟨hasCore, xs ++ ys, titles⟩ := by
  unfold parse_detail_page
  dsimp only
  rw [fuseLoop_skip f hf ys xs none none []]

/-- Witness for C6: a malformed-payload fragment between two alice posts
changes nothing. -/
theorem claim_C6_witness :
    parse_detail_page 3
        ⟨true, [mkFrag "alice" "d1" "t1"] ++ (⟨none, ["junk"]⟩ : PostFragment) ::
          [mkFrag "alice" "d2" "t2"], ["t6"]⟩ =
      parse_detail_page 3
        ⟨true, [mkFrag "alice" "d1" "t1"] ++ [mkFrag "alice" "d2" "t2"], ["t6"]⟩ :=
  claim_C6 3 true ["t6"] [mkFrag "alice" "d1" "t1"] [mkFrag "alice" "d2" "t2"]
    ⟨none, ["junk"]⟩ rfl

/-- Claim C7: decoding a non-error response uses the declared charset; on
a `UnicodeDecodeError` with a (case-insensitively) gbk charset the body is
re-decoded as gb18030 in ignore mode; and when decoding still fails on a
listing page — the gb18030 retry raises, or the charset is not gbk so the
error propagates — the listing step aborts the run. -/
theorem claim_C7 (resp : Response) (cs : String)
    (herr : resp.error = false) (hcs : resp.charset = some cs) :
    (∀ h, resp.body.strictDecode cs = .ok h → h.isEmpty = false →
      ∀ ef, (handle_request_call ef resp).outcome = .parsed h) ∧
    (resp.body.strictDecode cs = .unicodeError → pyLower cs = "gbk" →
      ∀ h, resp.body.gb18030Ignore = some h → h.isEmpty = false →
        ∀ ef, (handle_request_call ef resp).outcome = .parsed h) ∧
    (resp.body.strictDecode cs = .unicodeError → pyLower cs = "gbk" →
      resp.body.gb18030Ignore = none →
      ∀ parseHtml, fetch_summary_step parseHtml resp = .abort) ∧
    (resp.body.strictDecode cs = .unicodeError → pyLower cs ≠ "gbk" →
      ∀ parseHtml, fetch_summary_step parseHtml resp = .abort) := by
  obtain ⟨er, ch, bd⟩ := resp
  simp only at herr hcs
  subst herr
  subst hcs
  refine ⟨?_, ?_, ?_, ?_⟩
  · intro h hok hne ef
    have hok' : bd.strictDecode cs = .ok h := hok
    simp [handle_request_call, hok', hne]
  · intro hu hgbk h hig hne ef
    have hu' : bd.strictDecode cs = .unicodeError := hu
    have hig' : bd.gb18030Ignore = some h := hig
    simp [handle_request_call, hu', hgbk, hig', hne]
  · intro hu hgbk hig parseHtml
    have hu' : bd.strictDecode cs = .unicodeError := hu
    have hig' : bd.gb18030Ignore = none := hig
    simp [fetch_summary_step, handle_request_call, hu', hgbk, hig']
  · intro hu hng parseHtml
    have hu' : bd.strictDecode cs = .unicodeError := hu
    have hb : (pyLower cs == "gbk") = false := beq_eq_false_iff_ne.mpr hng
    simp [fetch_summary_step, handle_request_call, hu', hb]

/-- A gbk response whose strict decode fails but lossy gb18030 succeeds. -/
def gbkResp : Response := ⟨false, some "GBK", ⟨fun _ => .unicodeError, some "lossy"⟩⟩

/-- A gbk response for which even the gb18030 ignore decode raises. -/
def deadResp : Response := ⟨false, some "GBK", ⟨fun _ => .unicodeError, none⟩⟩

/-- A non-gbk response whose strict decode fails. -/
def latinResp : Response :=
  ⟨false, some "latin-1", ⟨fun _ => .unicodeError, none⟩⟩

/-- Witness for C7: the declared-charset decode is used; the gbk fallback
is used; both still-failing cases abort the listing step. -/
theorem claim_C7_witness :
    (handle_request_call false okResp).outcome = .parsed "page" ∧
    (handle_request_call true gbkResp).outcome = .parsed "lossy" ∧
    fetch_summary_step (fun _ => ⟨[], []⟩) deadResp = .abort ∧
    fetch_summary_step (fun _ => ⟨[], []⟩) latinResp = .abort := by
  refine ⟨?_, ?_, ?_, ?_⟩
  · exact (claim_C7 okResp "utf-8" rfl rfl).1 "page" rfl (by decide) false
  · exact (claim_C7 gbkResp "GBK" rfl rfl).2.1 rfl (by decide) "lossy" rfl
      (by decide) true
  · exact (claim_C7 deadResp "GBK" rfl rfl).2.2.1 rfl (by decide) rfl _
  · exact (claim_C7 latinResp "latin-1" rfl rfl).2.2.2 rfl (by decide) _

/-- Claim C8: re-running schema creation when the table already exists is
a no-op without error (`init_sqlite` is total and a second call changes
nothing), no duplicate table is created, and any schema-creation failure
is suppressed, leaving the state unchanged instead of aborting startup. -/
theorem claim_C8 (s : DbState) :
    init_sqlite (init_sqlite s) = init_sqlite s ∧
    (page_items_table ∉ s.tables →
      (init_sqlite s).tables.count page_items_table = 1) ∧
    (∀ ex : DbState → Option DbState, ex s = none → init_sqlite_with ex s = s) := by
  refine ⟨?_, ?_, ?_⟩
  · by_cases hm : page_items_table ∈ s.tables
    · simp [init_sqlite, init_sqlite_with, execCreateTable, hm]
    · simp [init_sqlite, init_sqlite_with, execCreateTable, hm]
  · intro hm
    simp [init_sqlite, init_sqlite_with, execCreateTable, hm,
      List.count_append, List.count_eq_zero.mpr hm]
  · intro ex hex
    simp [init_sqlite_with, hex]

/-- Witness for C8 starting from an empty schema. -/
theorem claim_C8_witness :
    init_sqlite (init_sqlite ⟨[]⟩) = init_sqlite ⟨[]⟩ ∧
    (init_sqlite ⟨[]⟩).tables.count page_items_table = 1 ∧
    init_sqlite_with (fun _ => none) ⟨[]⟩ = ⟨[]⟩ := by
  obtain ⟨h1, h2, h3⟩ := claim_C8 ⟨[]⟩
  exact ⟨h1, h2 (by decide), h3 _ rfl⟩

/-- Claim C9: every store operation first runs `_ensure_connected`: when
no handle exists or the idle time strictly exceeds `max_idle_time`, a
fresh connection is opened before the operation (otherwise the handle is
kept), the last-use timestamp is set to the current time on every use, and
the constructor's default idle threshold is 7 hours. -/
theorem claim_C9 (c : SqlConnection) (now : Int) :
    (conn_execute now c).lastUse = now ∧
    (conn_execute now c).db.isSome = true ∧
    ((c.db = none ∨ now - c.lastUse > c.maxIdle) →
      (conn_execute now c).db = some c.nextGen) ∧
    (c.db.isSome = true → ¬(now - c.lastUse > c.maxIdle) →
      (conn_execute now c).db = c.db) ∧
    (connection_init now).maxIdle = 7 * 3600 := by
  refine ⟨?_, ?_, ?_, ?_, rfl⟩
  · by_cases h : (c.db.isNone || decide (now - c.lastUse > c.maxIdle)) = true
    · simp [conn_execute, ensure_connected, sqlReconnect, h]
    · simp [conn_execute, ensure_connected, h]
  · by_cases h : (c.db.isNone || decide (now - c.lastUse > c.maxIdle)) = true
    · simp [conn_execute, ensure_connected, sqlReconnect, h]
    · have hor : (c.db.isNone || decide (now - c.lastUse > c.maxIdle)) = false :=
        Bool.eq_false_iff.mpr h
      have hx : c.db.isNone = false := (Bool.or_eq_false_iff.mp hor).1
      simp [conn_execute, ensure_connected, h, (Option.isNone_eq_false_iff _).mp hx]
  · intro hd
    have h : (c.db.isNone || decide (now - c.lastUse > c.maxIdle)) = true := by
      rcases hd with hd | hd
      · simp [hd]
      · simp [hd]
    simp [conn_execute, ensure_connected, sqlReconnect, h]
  · intro hs hidle
    have hx : c.db.isNone = false := (Option.isNone_eq_false_iff _).mpr hs
    have h : (c.db.isNone || decide (now - c.lastUse > c.maxIdle)) = false := by
      simp [hx, hidle]
    simp [conn_execute, ensure_connected, h]

/-- Witness for C9: an idle-expired connection (last use 10, now 100,
threshold 50) is transparently reopened and stamped. -/
theorem claim_C9_witness :
    (conn_execute 100 ⟨some 0, 10, 50, 1⟩).lastUse = 100 ∧
    (conn_execute 100 ⟨some 0, 10, 50, 1⟩).db.isSome = true ∧
    (conn_execute 100 ⟨some 0, 10, 50, 1⟩).db = some 1 ∧
    (connection_init 100).maxIdle = 7 * 3600 := by
  obtain ⟨h1, h2, h3, _, h5⟩ := claim_C9 ⟨some 0, 10, 50, 1⟩ 100
  exact ⟨h1, h2, h3 (Or.inr (by decide)), h5⟩

/-- Claim C10: the identity used for fusion is the payload's author `id`
when that is truthy, else the author `name`; and with the canonical author
established as `s`, a well-formed decodable fragment is fused (its text
appended, the loop continuing) exactly when its derived identity equals
`some s`, the loop breaking at it otherwise. -/
theorem claim_C10 :
    (∀ a : PAuthor, truthy a.id = true → userId a = a.id) ∧
    (∀ a : PAuthor, truthy a.id = false → userId a = a.name) ∧
    (∀ (s : String) (f : PostFragment) (rest : List PostFragment)
        (created : Option String) (acc : List String),
      wfFragment f = true → decodable f = true →
      ((fragUid f = some (some s) →
          fuseLoop (f :: rest) (some s) created acc =
            fuseLoop rest (some s) (fragDate f) (acc ++ [fragText f])) ∧
       (fragUid f ≠ some (some s) →
          fuseLoop (f :: rest) (some s) created acc = .done (fragDate f) acc))) := by
  refine ⟨?_, ?_, ?_⟩
  · intro a ht; simp [userId, pyOr, ht]
  · intro a ht; simp [userId, pyOr, ht]
  · intro s f rest created acc hwf hdec
    obtain ⟨df, cc⟩ := f
    cases df with
    | none => simp [decodable] at hdec
    | some data =>
      obtain ⟨pc, pa⟩ := data
      cases pc with
      | none => simp [wfFragment] at hwf
      | some c =>
        cases pa with
        | none => simp [wfFragment] at hwf
        | some a =>
          simp only [wfFragment, Bool.and_eq_true] at hwf
          obtain ⟨hdate, hcc⟩ := hwf
          obtain ⟨d, hd⟩ := Option.isSome_iff_exists.mp hdate
          cases cc with
          | nil => simp at hcc
          | cons t ts =>
            have hmain :
                (if (some s : Option String).isNone = true then userId a
                  else some s) = some s := rfl
            constructor
            · intro hfu
              have hau : userId a = some s := by simpa [fragUid] using hfu
              simp only [fuseLoop, hd]
              rw [hmain, if_neg (by simp [hau])]
              simp [fragDate, fragText, hd]
            · intro hfu
              have hau : userId a ≠ some s := by
                intro hc
                exact hfu (by simp [fragUid, hc])
              simp only [fuseLoop, hd]
              rw [hmain, if_pos (show (some s : Option String) ≠ userId a from
                fun hc => hau hc.symm)]
              simp [fragDate, hd]

/-- Witness for C10: the truthy id wins, the falsy id falls back to the
name, a matching fragment is fused and a mismatching one breaks the loop. -/
theorem claim_C10_witness :
    userId ⟨some "u1", some "nm"⟩ = some "u1" ∧
    userId ⟨some "", some "nm"⟩ = some "nm" ∧
    fuseLoop [mkFrag "alice" "dx" "tx"] (some "alice") none [] =
      fuseLoop [] (some "alice") (fragDate (mkFrag "alice" "dx" "tx"))
        ([] ++ [fragText (mkFrag "alice" "dx" "tx")]) ∧
    fuseLoop [mkFrag "carol" "dy" "ty"] (some "alice") none [] =
      .done (fragDate (mkFrag "carol" "dy" "ty")) [] := by
  refine ⟨claim_C10.1 ⟨some "u1", some "nm"⟩ (by decide),
    claim_C10.2.1 ⟨some "", some "nm"⟩ (by decide), ?_, ?_⟩
  · exact (claim_C10.2.2 "alice" (mkFrag "alice" "dx" "tx") [] none []
      (by decide) (by decide)).1 (by decide)
  · exact (claim_C10.2.2 "alice" (mkFrag "carol" "dy" "ty") [] none []
      (by decide) (by decide)).2 (by decide)

end GetTieba
